import Mathlib

/-!
Verification of the Raytracing_HPC path-tracing core.

Modelling conventions for the shallow embedding:
* C++ `double` values are modelled as exact rationals.  All arithmetic in the
  embedded functions mirrors the source expressions verbatim.
* `std::sqrt` is irrational-valued, so every embedded function that calls it
  receives the square-root function as an explicit parameter `sq : ℚ → ℚ`.
  Each theorem either holds for every `sq` or assumes exactly the square-root
  values it needs, and each witness instantiates `sq` with a function that has
  those values.
* The global pseudo-random generator is modelled by passing the values drawn
  by the sampling routines as explicit inputs.
* A virtual `Hittable` is modelled by a function-valued member.  Fallible hit
  queries return `Option HitRecord` instead of a bool plus an out-parameter.
-/

namespace Raytracer

/-- Coordinate axis selector, from the `Axis` enum in Vec3.h. -/
inductive Axis where
  | X
  | Y
  | Z
  deriving DecidableEq, Repr

/-- The 3-component vector of Vec3.h; doubles modelled as exact rationals.
The unused stream-output helper is not modelled. -/
structure Vec3 where
  x : ℚ
  y : ℚ
  z : ℚ
  deriving DecidableEq, Repr

/-- Componentwise vector addition, from `operator+` in Vec3.cpp. -/
def Vec3.add (a b : Vec3) : Vec3 :=
  ⟨a.x + b.x, a.y + b.y, a.z + b.z⟩

instance : Add Vec3 := ⟨Vec3.add⟩

/-- Componentwise vector subtraction, from `operator-` in Vec3.cpp. -/
def Vec3.sub (a b : Vec3) : Vec3 :=
  ⟨a.x - b.x, a.y - b.y, a.z - b.z⟩

instance : Sub Vec3 := ⟨Vec3.sub⟩

/-- Componentwise negation, the `negate` member of Vec3.h. -/
def Vec3.neg (v : Vec3) : Vec3 :=
  ⟨-v.x, -v.y, -v.z⟩

instance : Neg Vec3 := ⟨Vec3.neg⟩

/-- Hadamard product, from `operator*(Vec3, Vec3)` in Vec3.cpp. -/
def Vec3.hadamard (a b : Vec3) : Vec3 :=
  ⟨a.x * b.x, a.y * b.y, a.z * b.z⟩

instance : Mul Vec3 := ⟨Vec3.hadamard⟩

/-- Scalar multiplication, from `operator*(double, Vec3)` in Vec3.cpp. -/
def Vec3.smul (c : ℚ) (v : Vec3) : Vec3 :=
  ⟨c * v.x, c * v.y, c * v.z⟩

instance : HMul ℚ Vec3 Vec3 := ⟨Vec3.smul⟩

instance : HMul Vec3 ℚ Vec3 := ⟨fun v c => Vec3.smul c v⟩

/-- Scalar division, from `operator/(Vec3, double)` in Vec3.cpp, which
multiplies by the reciprocal of the divisor. -/
def Vec3.div (v : Vec3) (divisor : ℚ) : Vec3 :=
  Vec3.smul (1 / divisor) v

instance : HDiv Vec3 ℚ Vec3 := ⟨Vec3.div⟩

instance : Zero Vec3 := ⟨⟨0, 0, 0⟩⟩

@[simp]
theorem Vec3.add_def (a b : Vec3) : a + b = ⟨a.x + b.x, a.y + b.y, a.z + b.z⟩ := rfl

@[simp]
theorem Vec3.sub_def (a b : Vec3) : a - b = ⟨a.x - b.x, a.y - b.y, a.z - b.z⟩ := rfl

@[simp]
theorem Vec3.neg_def (v : Vec3) : -v = ⟨-v.x, -v.y, -v.z⟩ := rfl

@[simp]
theorem Vec3.hadamard_def (a b : Vec3) : a * b = ⟨a.x * b.x, a.y * b.y, a.z * b.z⟩ := rfl

@[simp]
theorem Vec3.smul_def (c : ℚ) (v : Vec3) : c * v = ⟨c * v.x, c * v.y, c * v.z⟩ := rfl

@[simp]
theorem Vec3.smul_right_def (v : Vec3) (c : ℚ) : v * c = ⟨c * v.x, c * v.y, c * v.z⟩ := rfl

@[simp]
theorem Vec3.div_def (v : Vec3) (c : ℚ) : v / c = ⟨1 / c * v.x, 1 / c * v.y, 1 / c * v.z⟩ := rfl

@[simp]
theorem Vec3.zero_def : (0 : Vec3) = ⟨0, 0, 0⟩ := rfl

/-- Dot product, from `dot` in Vec3.cpp. -/
def dot (a b : Vec3) : ℚ :=
  a.x * b.x + a.y * b.y + a.z * b.z

/-- Cross product, from `cross` in Vec3.cpp. -/
def cross (a b : Vec3) : Vec3 :=
  ⟨a.y * b.z - a.z * b.y, a.z * b.x - a.x * b.z, a.x * b.y - a.y * b.x⟩

/-- Squared length, the `length_squared` member of Vec3.h. -/
def Vec3.length_squared (v : Vec3) : ℚ :=
  v.x * v.x + v.y * v.y + v.z * v.z

/-- Component selection by axis, the `component` member of Vec3.h. -/
def Vec3.component (v : Vec3) (axis : Axis) : ℚ :=
  match axis with
  | Axis.X => v.x
  | Axis.Y => v.y
  | Axis.Z => v.z

/-- Normalization, `unit_vector` in Vec3.cpp: the vector divided by its
length, where length is the square root of the squared length. -/
def unit_vector (sq : ℚ → ℚ) (v : Vec3) : Vec3 :=
  v / sq v.length_squared

/-- Parametric ray of Ray.h, an origin plus a direction. -/
structure Ray where
  origin : Vec3
  direction : Vec3
  deriving DecidableEq, Repr

/-- Point-at-parameter evaluation, the `at` member of Ray.h. -/
def Ray.at (ray : Ray) (distance : ℚ) : Vec3 :=
  ray.origin + distance * ray.direction

/-- Closed variant of the polymorphic Material hierarchy of Material.h.
Only the data each subclass stores is kept here; behaviour follows below. -/
inductive Material where
  | matte (surface_color : Vec3)
  | reflective (surface_color : Vec3) (fuzziness : ℚ)
  | transparent (refractive_index : ℚ)
  deriving DecidableEq, Repr

/-- The `base_color` virtual of Material.h: the surface albedo for Matte and
Reflective, and pure white for Transparent. -/
def Material.base_color : Material → Vec3
  | Material.matte surface_color => surface_color
  | Material.reflective surface_color _ => surface_color
  | Material.transparent _ => ⟨1, 1, 1⟩

/-- The `is_diffuse` virtual of Material.h: true only for Matte. -/
def Material.is_diffuse : Material → Bool
  | Material.matte _ => true
  | Material.reflective _ _ => false
  | Material.transparent _ => false

/-- Intersection result record of Hittable.h.  The unused `object_color`
field of one header variant is never read by any modelled function and is
omitted; `material_ptr` holds the material value shared pointers point at. -/
structure HitRecord where
  hit_point : Vec3
  surface_normal : Vec3
  distance_from_ray : ℚ
  is_front_face : Bool
  material_ptr : Material
  deriving DecidableEq, Repr

/-- The `set_face_normal` member of Hittable.h: orient the stored normal
against the incoming ray direction and record which face was hit. -/
def HitRecord.set_face_normal (record : HitRecord) (ray : Ray)
    (outward_normal : Vec3) : HitRecord :=
  let front := decide (dot ray.direction outward_normal < 0)
  { record with
    is_front_face := front
    surface_normal := if front then outward_normal else outward_normal.neg }

/-- Rectangle orientation data of AxisAlignedRect.h. -/
structure RectOrientation where
  tangent_u : Axis
  tangent_v : Axis
  normal_axis : Axis
  base_normal : Vec3
  deriving DecidableEq, Repr

/-- The `outward_normal` member of RectOrientation: the base normal,
negated when the flip flag is set. -/
def RectOrientation.outward_normal (o : RectOrientation) (flip : Bool) : Vec3 :=
  if flip then o.base_normal.neg else o.base_normal

/-- Generic axis-aligned rectangle of AxisAlignedRect.h. -/
structure AxisAlignedRect where
  orientation : RectOrientation
  u0 : ℚ
  u1 : ℚ
  v0 : ℚ
  v1 : ℚ
  k : ℚ
  material_ptr : Material
  flip_normal : Bool
  deriving DecidableEq, Repr

/-- The rectangle `hit` method of AxisAlignedRect.cpp.  The record fields are
assigned exactly as in the source; the placeholder normal and face flag of
the freshly built record are immediately overwritten by `set_face_normal`. -/
def AxisAlignedRect.hit (rect : AxisAlignedRect) (ray : Ray)
    (min_distance max_distance : ℚ) : Option HitRecord :=
  let origin := ray.origin
  let direction := ray.direction
  let denominator := direction.component rect.orientation.normal_axis
  if |denominator| < 1 / 100000000 then
    none
  else
    let offset_along_normal := rect.k - origin.component rect.orientation.normal_axis
    let t := offset_along_normal / denominator
    if t < min_distance ∨ t > max_distance then
      none
    else
      let u_coord := origin.component rect.orientation.tangent_u
        + t * direction.component rect.orientation.tangent_u
      let v_coord := origin.component rect.orientation.tangent_v
        + t * direction.component rect.orientation.tangent_v
      if u_coord < rect.u0 ∨ u_coord > rect.u1 ∨ v_coord < rect.v0 ∨ v_coord > rect.v1 then
        none
      else
        let outward_normal := rect.orientation.outward_normal rect.flip_normal
        let record : HitRecord :=
          { distance_from_ray := t
            hit_point := ray.at t
            material_ptr := rect.material_ptr
            surface_normal := ⟨0, 0, 0⟩
            is_front_face := false }
        some (record.set_face_normal ray outward_normal)

/-- Unit vector along an axis; the shape every rectangle orientation used by
the program gives its `base_normal`. -/
def Axis.unit_vec : Axis → Vec3
  | Axis.X => ⟨1, 0, 0⟩
  | Axis.Y => ⟨0, 1, 0⟩
  | Axis.Z => ⟨0, 0, 1⟩

/-- Modelled from the spec: the static constant `XYRect::kOrientation` is
declared but its definition is not among the provided sources; per the spec
the normal of a rectangle is the fixed axis-aligned unit vector of its
constant axis, here the Z axis for a rectangle spanning X and Y. -/
def XYRect.kOrientation : RectOrientation :=
  ⟨Axis.X, Axis.Y, Axis.Z, ⟨0, 0, 1⟩⟩

/-- Modelled from the spec: the static constant `XZRect::kOrientation`,
normal along the Y axis for a rectangle spanning X and Z. -/
def XZRect.kOrientation : RectOrientation :=
  ⟨Axis.X, Axis.Z, Axis.Y, ⟨0, 1, 0⟩⟩

/-- Modelled from the spec: the static constant `YZRect::kOrientation`,
normal along the X axis for a rectangle spanning Y and Z. -/
def YZRect.kOrientation : RectOrientation :=
  ⟨Axis.Y, Axis.Z, Axis.X, ⟨1, 0, 0⟩⟩

/-- An orientation is well formed when its base normal is the unit vector of
its constant axis, as every orientation constructible in the program is. -/
def RectOrientation.WellFormed (o : RectOrientation) : Prop :=
  o.base_normal = o.normal_axis.unit_vec

theorem xyRect_kOrientation_wellFormed : XYRect.kOrientation.WellFormed := rfl

theorem xzRect_kOrientation_wellFormed : XZRect.kOrientation.WellFormed := rfl

theorem yzRect_kOrientation_wellFormed : YZRect.kOrientation.WellFormed := rfl

theorem vec_neg_neg (v : Vec3) : v.neg.neg = v := by
  simp [Vec3.neg]

theorem dot_neg_right (a b : Vec3) : dot a b.neg = -(dot a b) := by
  simp [dot, Vec3.neg]
  ring

theorem dot_unit_vec (v : Vec3) (axis : Axis) :
    dot v axis.unit_vec = v.component axis := by
  cases axis <;> simp [dot, Axis.unit_vec, Vec3.component]

/-- Negating the outward normal handed to `set_face_normal` flips only the
front-face flag: the front-face correction re-orients the stored normal to
the same vector, provided the ray is not exactly tangent to the surface. -/
theorem set_face_normal_neg (record : HitRecord) (ray : Ray) (n : Vec3)
    (h : dot ray.direction n ≠ 0) :
    record.set_face_normal ray n.neg
      = { record.set_face_normal ray n with
          is_front_face := !(record.set_face_normal ray n).is_front_face } := by
  unfold HitRecord.set_face_normal
  rcases lt_or_gt_of_ne h with hlt | hgt
  · simp [dot_neg_right, hlt, not_lt.mpr (le_of_lt hlt), vec_neg_neg,
      not_lt.mpr (le_of_lt (neg_pos.mpr hlt))]
  · simp [dot_neg_right, not_lt.mpr (le_of_lt hgt), neg_lt_zero.mpr hgt]

/-- Helper for the flip-flag claims: on a well-formed rectangle the hit with
flipped normal agrees with the unflipped hit in every field except the
front-face flag, which is negated. -/
theorem rect_hit_flip_eq (rect : AxisAlignedRect)
    (hwf : rect.orientation.WellFormed) (ray : Ray)
    (min_distance max_distance : ℚ) :
    AxisAlignedRect.hit { rect with flip_normal := true } ray min_distance max_distance
      = Option.map (fun record => { record with is_front_face := !record.is_front_face })
          (AxisAlignedRect.hit { rect with flip_normal := false } ray min_distance max_distance) := by
  unfold AxisAlignedRect.hit
  by_cases hd : |ray.direction.component rect.orientation.normal_axis| < 1 / 100000000
  · rw [if_pos hd, if_pos hd]
    rfl
  · have hdne : ray.direction.component rect.orientation.normal_axis ≠ 0 := by
      intro h0
      exact hd (by rw [h0]; norm_num)
    have hdot : dot ray.direction rect.orientation.base_normal ≠ 0 := by
      rw [hwf, dot_unit_vec]
      exact hdne
    rw [if_neg hd, if_neg hd]
    by_cases ht : (rect.k - ray.origin.component rect.orientation.normal_axis) /
        ray.direction.component rect.orientation.normal_axis < min_distance ∨
        (rect.k - ray.origin.component rect.orientation.normal_axis) /
        ray.direction.component rect.orientation.normal_axis > max_distance
    · rw [if_pos ht, if_pos ht]
      rfl
    · rw [if_neg ht, if_neg ht]
      by_cases hb : ray.origin.component rect.orientation.tangent_u +
            (rect.k - ray.origin.component rect.orientation.normal_axis) /
              ray.direction.component rect.orientation.normal_axis *
              ray.direction.component rect.orientation.tangent_u < rect.u0 ∨
          ray.origin.component rect.orientation.tangent_u +
            (rect.k - ray.origin.component rect.orientation.normal_axis) /
              ray.direction.component rect.orientation.normal_axis *
              ray.direction.component rect.orientation.tangent_u > rect.u1 ∨
          ray.origin.component rect.orientation.tangent_v +
            (rect.k - ray.origin.component rect.orientation.normal_axis) /
              ray.direction.component rect.orientation.normal_axis *
              ray.direction.component rect.orientation.tangent_v < rect.v0 ∨
          ray.origin.component rect.orientation.tangent_v +
            (rect.k - ray.origin.component rect.orientation.normal_axis) /
              ray.direction.component rect.orientation.normal_axis *
              ray.direction.component rect.orientation.tangent_v > rect.v1
      · rw [if_pos hb, if_pos hb]
        rfl
      · rw [if_neg hb, if_neg hb]
        have houtf : rect.orientation.outward_normal true
            = rect.orientation.base_normal.neg := rfl
        have houtu : rect.orientation.outward_normal false
            = rect.orientation.base_normal := rfl
        rw [houtf, houtu]
        dsimp only
        rw [set_face_normal_neg _ _ _ hdot]
        rfl

/-- Concrete rectangle used to instantiate the rectangle theorems: the XY
rectangle spanning [-1,1] x [-1,1] at z = 0 with a matte gray material. -/
def testRectU : AxisAlignedRect :=
  ⟨XYRect.kOrientation, -1, 1, -1, 1, 0, Material.matte ⟨1/2, 1/2, 1/2⟩, false⟩

/-- Concrete ray used to instantiate the rectangle theorems: from (0,0,1)
straight down the negative z axis, hitting the test rectangle at t = 1. -/
def testRay : Ray := ⟨⟨0, 0, 1⟩, ⟨0, 0, -1⟩⟩

/-- Claim C7: for every axis-aligned rectangle and every ray whose direction
component along the normal axis has magnitude below 1e-8, `hit` returns
no-hit via the guard that precedes the plane division, so the near-zero
division never produces a value that reaches the hit record. -/
theorem rect_parallel_ray_no_hit (rect : AxisAlignedRect) (ray : Ray)
    (min_distance max_distance : ℚ)
    (h : |ray.direction.component rect.orientation.normal_axis| < 1 / 100000000) :
    rect.hit ray min_distance max_distance = none := by
  unfold AxisAlignedRect.hit
  rw [if_pos h]

/-- Witness for C7: a ray running along the x axis is parallel to the test
rectangle in the plane z = 0 and is rejected. -/
theorem rect_parallel_ray_no_hit_witness :
    |(Ray.mk ⟨0, 0, 1⟩ ⟨1, 0, 0⟩).direction.component testRectU.orientation.normal_axis|
        < 1 / 100000000
    ∧ testRectU.hit ⟨⟨0, 0, 1⟩, ⟨1, 0, 0⟩⟩ (1/1000) 1000000 = none :=
  ⟨by norm_num [testRectU, XYRect.kOrientation, Vec3.component],
    rect_parallel_ray_no_hit testRectU ⟨⟨0, 0, 1⟩, ⟨1, 0, 0⟩⟩ (1/1000) 1000000
      (by norm_num [testRectU, XYRect.kOrientation, Vec3.component])⟩

/-- Claim C10: for every rectangle whose orientation is well formed, as all
orientations constructible in the program are, the hit with the flip-normal
flag set differs from the unflipped hit only in the front-face flag: the
recorded surface normal and every other field are identical, because
`set_face_normal` re-orients the stored normal against the ray direction. -/
theorem rect_flip_only_front_face_flag (rect : AxisAlignedRect)
    (hwf : rect.orientation.WellFormed) (ray : Ray)
    (min_distance max_distance : ℚ) :
    AxisAlignedRect.hit { rect with flip_normal := true } ray min_distance max_distance
      = Option.map (fun record => { record with is_front_face := !record.is_front_face })
          (AxisAlignedRect.hit { rect with flip_normal := false } ray min_distance max_distance) :=
  rect_hit_flip_eq rect hwf ray min_distance max_distance

/-- Witness for C10 at the test rectangle and test ray. -/
theorem rect_flip_only_front_face_flag_witness :
    testRectU.orientation.WellFormed
    ∧ AxisAlignedRect.hit { testRectU with flip_normal := true } testRay (1/1000) 1000000
      = Option.map (fun record => { record with is_front_face := !record.is_front_face })
          (AxisAlignedRect.hit { testRectU with flip_normal := false } testRay (1/1000) 1000000) :=
  ⟨rfl, rect_flip_only_front_face_flag testRectU rfl testRay (1/1000) 1000000⟩

/-- Counterexample to C3 as stated: for the test rectangle and test ray, the
flipped rectangle returns the same recorded surface normal as the unflipped
one, not its negation. -/
theorem rect_flip_negation_counterexample :
    ∃ recU recF : HitRecord,
      AxisAlignedRect.hit testRectU testRay (1/1000) 1000000 = some recU
      ∧ AxisAlignedRect.hit { testRectU with flip_normal := true } testRay (1/1000) 1000000
          = some recF
      ∧ recF.surface_normal ≠ recU.surface_normal.neg := by
  refine ⟨⟨⟨0, 0, 0⟩, ⟨0, 0, 1⟩, 1, true, Material.matte ⟨1/2, 1/2, 1/2⟩⟩,
    ⟨⟨0, 0, 0⟩, ⟨0, 0, 1⟩, 1, false, Material.matte ⟨1/2, 1/2, 1/2⟩⟩, ?_, ?_, ?_⟩
  · norm_num [AxisAlignedRect.hit, testRectU, testRay, XYRect.kOrientation,
      Vec3.component, RectOrientation.outward_normal, HitRecord.set_face_normal,
      Ray.at, dot]
  · norm_num [AxisAlignedRect.hit, testRectU, testRay, XYRect.kOrientation,
      Vec3.component, RectOrientation.outward_normal, HitRecord.set_face_normal,
      Ray.at, dot, Vec3.neg]
  · norm_num [Vec3.neg]

/-- Claim C3 (amended): setting the flip flag negates the geometric outward
normal handed to `set_face_normal`, but for an otherwise identical hit the
recorded surface normal is identical to the unflipped case and only the
front-face flag is negated. -/
theorem rect_flip_negates_outward_normal_only (rect : AxisAlignedRect)
    (hwf : rect.orientation.WellFormed) (ray : Ray)
    (min_distance max_distance : ℚ) :
    rect.orientation.outward_normal true = (rect.orientation.outward_normal false).neg
    ∧ ∀ recU recF : HitRecord,
        AxisAlignedRect.hit { rect with flip_normal := false } ray min_distance max_distance
          = some recU →
        AxisAlignedRect.hit { rect with flip_normal := true } ray min_distance max_distance
          = some recF →
        recF.surface_normal = recU.surface_normal
        ∧ recF.is_front_face = !recU.is_front_face := by
  constructor
  · rfl
  · intro recU recF hU hF
    have h := rect_hit_flip_eq rect hwf ray min_distance max_distance
    rw [hU, hF] at h
    simp only [Option.map_some'] at h
    injection h with h2
    subst h2
    exact ⟨rfl, rfl⟩

/-- Witness for the amended C3 at the test rectangle and test ray. -/
theorem rect_flip_negates_outward_normal_only_witness :
    testRectU.orientation.WellFormed
    ∧ (testRectU.orientation.outward_normal true
        = (testRectU.orientation.outward_normal false).neg
      ∧ ∀ recU recF : HitRecord,
          AxisAlignedRect.hit { testRectU with flip_normal := false } testRay (1/1000) 1000000
            = some recU →
          AxisAlignedRect.hit { testRectU with flip_normal := true } testRay (1/1000) 1000000
            = some recF →
          recF.surface_normal = recU.surface_normal
          ∧ recF.is_front_face = !recU.is_front_face) :=
  ⟨rfl, rect_flip_negates_outward_normal_only testRectU rfl testRay (1/1000) 1000000⟩

/-- A scene member of HittableList.h: the virtual `hit` method of the
Hittable base class is modelled by a function-valued member returning
`Option HitRecord` instead of a bool plus an out-parameter. -/
structure Hittable where
  hitf : Ray → ℚ → ℚ → Option HitRecord

/-- Promotion of a rectangle to a scene member. -/
def rectHittable (rect : AxisAlignedRect) : Hittable :=
  ⟨fun ray min_distance max_distance => rect.hit ray min_distance max_distance⟩

/-- The member loop of HittableList::hit: try each object against the
progressively narrowed far bound, keeping the record of the latest accepted
hit.  `record` and `closest_so_far` carry the loop state. -/
def hit_scan (objects : List Hittable) (ray : Ray) (min_distance : ℚ)
    (record : Option HitRecord) (closest_so_far : ℚ) : Option HitRecord :=
  match objects with
  | [] => record
  | object :: rest =>
    match object.hitf ray min_distance closest_so_far with
    | some temp_record =>
        hit_scan rest ray min_distance (some temp_record) temp_record.distance_from_ray
    | none => hit_scan rest ray min_distance record closest_so_far

/-- The `hit` method of HittableList.h: scan all members starting from no
recorded hit and `closest_so_far = max_distance`. -/
def HittableList.hit (objects : List Hittable) (ray : Ray)
    (min_distance max_distance : ℚ) : Option HitRecord :=
  hit_scan objects ray min_distance none max_distance

/-- First half of the primitive contract of spec section 4.1: a member only
reports intersections whose ray parameter lies within the queried range. -/
def HitInRange (o : Hittable) : Prop :=
  ∀ ray a b record, o.hitf ray a b = some record →
    a ≤ record.distance_from_ray ∧ record.distance_from_ray ≤ b

/-- Narrowing part of the primitive contract: shrinking the far bound to any
value still at or beyond a reported hit returns the same hit, as it does for
a primitive that reports the closest of its candidate intersections. -/
def HitNarrowStable (o : Hittable) : Prop :=
  ∀ ray a b c record, o.hitf ray a b = some record →
    record.distance_from_ray ≤ c → c ≤ b → o.hitf ray a c = some record

/-- Widening part of the primitive contract: enlarging the far bound beyond
a range in which a hit was reported returns the same hit, since any newly
admitted candidate lies farther than the reported closest one. -/
def HitWidenStable (o : Hittable) : Prop :=
  ∀ ray a b c record, o.hitf ray a b = some record → b ≤ c →
    o.hitf ray a c = some record

/-- The conjunction of the three contract parts of spec section 4.1. -/
def WellBehaved (o : Hittable) : Prop :=
  HitInRange o ∧ HitNarrowStable o ∧ HitWidenStable o

/-- Loop invariant tying the recorded hit to `closest_so_far`: before any
hit is found the bound is the original far bound, afterwards it is the
distance of the recorded hit and never exceeds the original bound. -/
def scan_inv (record : Option HitRecord) (closest tmax : ℚ) : Prop :=
  match record with
  | none => closest = tmax
  | some rec0 => rec0.distance_from_ray = closest ∧ closest ≤ tmax

/-- Full characterisation of the member loop of HittableList::hit under the
primitive contract, by induction over the member list. -/
theorem hit_scan_spec (ray : Ray) (tmin tmax : ℚ) :
    ∀ objects : List Hittable, (∀ o ∈ objects, WellBehaved o) →
    ∀ (record : Option HitRecord) (closest : ℚ), scan_inv record closest tmax →
    (hit_scan objects ray tmin record closest = none →
        record = none ∧ ∀ o ∈ objects, o.hitf ray tmin tmax = none)
    ∧ (∀ result, hit_scan objects ray tmin record closest = some result →
        result.distance_from_ray ≤ closest
        ∧ (record = some result ∨ ∃ o ∈ objects, o.hitf ray tmin tmax = some result)
        ∧ (∀ rec0, record = some rec0 →
            result.distance_from_ray ≤ rec0.distance_from_ray)
        ∧ (∀ o ∈ objects, ∀ other, o.hitf ray tmin tmax = some other →
            result.distance_from_ray ≤ other.distance_from_ray)) := by
  intro objects
  induction objects with
  | nil =>
    intro _ record closest hinv
    constructor
    · intro h
      simp only [hit_scan] at h
      exact ⟨h, fun o ho => absurd ho (List.not_mem_nil o)⟩
    · intro result h
      simp only [hit_scan] at h
      rw [h] at hinv
      refine ⟨le_of_eq hinv.1, Or.inl h, ?_, ?_⟩
      · intro rec0 hr0
        rw [h] at hr0
        injection hr0 with he
        rw [he]
      · intro o ho
        exact absurd ho (List.not_mem_nil o)
  | cons o rest ih =>
    intro hwb record closest hinv
    have hwbo : WellBehaved o := hwb o (List.mem_cons_self o rest)
    have hwbrest : ∀ x ∈ rest, WellBehaved x :=
      fun x hx => hwb x (List.mem_cons_of_mem o hx)
    have hclosest_le : closest ≤ tmax := by
      cases record with
      | none => exact le_of_eq hinv
      | some rec0 => exact hinv.2
    cases hcall : o.hitf ray tmin closest with
    | some temp =>
      have hrange := hwbo.1 ray tmin closest temp hcall
      have hfull : o.hitf ray tmin tmax = some temp :=
        hwbo.2.2 ray tmin closest tmax temp hcall hclosest_le
      have hinv2 : scan_inv (some temp) temp.distance_from_ray tmax :=
        ⟨rfl, le_trans hrange.2 hclosest_le⟩
      have IH := ih hwbrest (some temp) temp.distance_from_ray hinv2
      constructor
      · intro h
        simp only [hit_scan, hcall] at h
        exact absurd (IH.1 h).1 (Option.some_ne_none temp)
      · intro result h
        simp only [hit_scan, hcall] at h
        obtain ⟨hle, hprov, hacc, hmem⟩ := IH.2 result h
        have hres_le_temp : result.distance_from_ray ≤ temp.distance_from_ray := hle
        refine ⟨le_trans hres_le_temp hrange.2, ?_, ?_, ?_⟩
        · rcases hprov with heq | ⟨o2, ho2, h2⟩
          · injection heq with he
            exact Or.inr ⟨o, List.mem_cons_self o rest, by rw [hfull, he]⟩
          · exact Or.inr ⟨o2, List.mem_cons_of_mem o ho2, h2⟩
        · intro rec0 hr0
          rw [hr0] at hinv
          calc result.distance_from_ray ≤ temp.distance_from_ray := hres_le_temp
            _ ≤ closest := hrange.2
            _ = rec0.distance_from_ray := hinv.1.symm
        · intro o2 ho2 other hother
          rcases List.mem_cons.mp ho2 with rfl | hmem2
          · rw [hfull] at hother
            injection hother with he
            rw [← he]
            exact hres_le_temp
          · exact hmem o2 hmem2 other hother
    | none =>
      have IH := ih hwbrest record closest hinv
      constructor
      · intro h
        simp only [hit_scan, hcall] at h
        obtain ⟨hrec, hrest⟩ := IH.1 h
        refine ⟨hrec, ?_⟩
        intro o2 ho2
        rcases List.mem_cons.mp ho2 with rfl | hmem2
        · have hct : closest = tmax := by
            rw [hrec] at hinv
            exact hinv
          rw [← hct]
          exact hcall
        · exact hrest o2 hmem2
      · intro result h
        simp only [hit_scan, hcall] at h
        obtain ⟨hle, hprov, hacc, hmem⟩ := IH.2 result h
        refine ⟨hle, ?_, hacc, ?_⟩
        · rcases hprov with heq | ⟨o2, ho2, h2⟩
          · exact Or.inl heq
          · exact Or.inr ⟨o2, List.mem_cons_of_mem o ho2, h2⟩
        · intro o2 ho2 other hother
          rcases List.mem_cons.mp ho2 with rfl | hmem2
          · by_contra hlt
            push_neg at hlt
            have h1 : other.distance_from_ray ≤ closest :=
              le_trans (le_of_lt hlt) hle
            have h2 := hwbo.2.1 ray tmin tmax closest other hother h1 hclosest_le
            rw [hcall] at h2
            exact Option.noConfusion h2
          · exact hmem o2 hmem2 other hother

/-- Claim C1: for every ray, every distance range and every member list
whose members obey the primitive contract of spec section 4.1, the
aggregate hit reports a hit exactly when some member reports a hit with
parameter in the range, and a reported record is one produced by a member
over the full range and has the smallest accepted distance, so a farther
hit never replaces a closer one. -/
theorem hittableList_hit_closest (objects : List Hittable) (ray : Ray)
    (t_min t_max : ℚ) (hwb : ∀ o ∈ objects, WellBehaved o) :
    (HittableList.hit objects ray t_min t_max = none ↔
      ∀ o ∈ objects, o.hitf ray t_min t_max = none)
    ∧ ∀ result, HittableList.hit objects ray t_min t_max = some result →
        (t_min ≤ result.distance_from_ray ∧ result.distance_from_ray ≤ t_max)
        ∧ (∃ o ∈ objects, o.hitf ray t_min t_max = some result)
        ∧ ∀ o ∈ objects, ∀ other, o.hitf ray t_min t_max = some other →
            result.distance_from_ray ≤ other.distance_from_ray := by
  have hspec := hit_scan_spec ray t_min t_max objects hwb none t_max rfl
  unfold HittableList.hit
  constructor
  · constructor
    · intro h
      exact (hspec.1 h).2
    · intro hall
      cases hres : hit_scan objects ray t_min none t_max with
      | none => rfl
      | some result =>
        obtain ⟨_, hprov, _, _⟩ := hspec.2 result hres
        rcases hprov with heq | ⟨o, ho, hsome⟩
        · exact Option.noConfusion heq
        · rw [hall o ho] at hsome
          exact Option.noConfusion hsome
  · intro result hres
    obtain ⟨hle, hprov, _, hmem⟩ := hspec.2 result hres
    rcases hprov with heq | ⟨o, ho, hsome⟩
    · exact Option.noConfusion heq
    · exact ⟨(hwb o ho).1 ray t_min t_max result hsome, ⟨o, ho, hsome⟩, hmem⟩

/-- Rectangles satisfy the range part of the primitive contract. -/
theorem rect_hitInRange (rect : AxisAlignedRect) : HitInRange (rectHittable rect) := by
  intro ray a b record h
  unfold rectHittable AxisAlignedRect.hit at h
  dsimp only at h
  split_ifs at h with h1 h2 h3
  injection h with he
  push_neg at h2
  rw [← he]
  exact ⟨h2.1, h2.2⟩

/-- Rectangles satisfy the narrowing part of the primitive contract. -/
theorem rect_hitNarrowStable (rect : AxisAlignedRect) :
    HitNarrowStable (rectHittable rect) := by
  intro ray a b c record h hc hcb
  unfold rectHittable AxisAlignedRect.hit at h ⊢
  dsimp only at h ⊢
  split_ifs at h with h1 h2 h3
  injection h with he
  push_neg at h2
  have htc : (rect.k - ray.origin.component rect.orientation.normal_axis) /
      ray.direction.component rect.orientation.normal_axis ≤ c := by
    rw [← he] at hc
    exact hc
  have hc2 : ¬((rect.k - ray.origin.component rect.orientation.normal_axis) /
      ray.direction.component rect.orientation.normal_axis < a ∨
      (rect.k - ray.origin.component rect.orientation.normal_axis) /
      ray.direction.component rect.orientation.normal_axis > c) := by
    push_neg
    exact ⟨h2.1, htc⟩
  rw [if_neg h1, if_neg hc2, if_neg h3]
  rw [← he]

/-- Rectangles satisfy the widening part of the primitive contract. -/
theorem rect_hitWidenStable (rect : AxisAlignedRect) :
    HitWidenStable (rectHittable rect) := by
  intro ray a b c record h hbc
  unfold rectHittable AxisAlignedRect.hit at h ⊢
  dsimp only at h ⊢
  split_ifs at h with h1 h2 h3
  injection h with he
  push_neg at h2
  have hc2 : ¬((rect.k - ray.origin.component rect.orientation.normal_axis) /
      ray.direction.component rect.orientation.normal_axis < a ∨
      (rect.k - ray.origin.component rect.orientation.normal_axis) /
      ray.direction.component rect.orientation.normal_axis > c) := by
    push_neg
    exact ⟨h2.1, le_trans h2.2 hbc⟩
  rw [if_neg h1, if_neg hc2, if_neg h3]
  rw [← he]

/-- Rectangles satisfy the whole primitive contract of spec section 4.1. -/
theorem rect_wellBehaved (rect : AxisAlignedRect) : WellBehaved (rectHittable rect) :=
  ⟨rect_hitInRange rect, rect_hitNarrowStable rect, rect_hitWidenStable rect⟩

/-- Witness for C1: the singleton scene holding the test rectangle obeys the
contract, so the aggregate characterisation applies to it. -/
theorem hittableList_hit_closest_witness :
    (∀ o ∈ [rectHittable testRectU], WellBehaved o)
    ∧ ((HittableList.hit [rectHittable testRectU] testRay (1/1000) 1000000 = none ↔
        ∀ o ∈ [rectHittable testRectU], o.hitf testRay (1/1000) 1000000 = none)
      ∧ ∀ result,
          HittableList.hit [rectHittable testRectU] testRay (1/1000) 1000000 = some result →
          ((1/1000 : ℚ) ≤ result.distance_from_ray ∧ result.distance_from_ray ≤ 1000000)
          ∧ (∃ o ∈ [rectHittable testRectU], o.hitf testRay (1/1000) 1000000 = some result)
          ∧ ∀ o ∈ [rectHittable testRectU], ∀ other,
              o.hitf testRay (1/1000) 1000000 = some other →
              result.distance_from_ray ≤ other.distance_from_ray) := by
  have hwb : ∀ o ∈ [rectHittable testRectU], WellBehaved o := by
    intro o ho
    rw [List.mem_singleton] at ho
    rw [ho]
    exact rect_wellBehaved testRectU
  exact ⟨hwb, hittableList_hit_closest [rectHittable testRectU] testRay (1/1000) 1000000 hwb⟩

/-- Sphere of Sphere.h: a center, a radius and a material. -/
structure Sphere where
  center_position : Vec3
  radius : ℚ
  material_ptr : Material
  deriving DecidableEq, Repr

/-- The sphere `hit` method of Sphere.h, solving the half-b quadratic.  The
square root of the discriminant is taken with the modelled `sq` function.
The source tries the closer root first and falls back to the farther root
when the closer one is outside the queried range; writing the final range
test over the accepted root is equivalent, since the test is redundant
exactly when the closer root was already accepted. -/
def Sphere.hit (sq : ℚ → ℚ) (s : Sphere) (ray : Ray)
    (min_distance max_distance : ℚ) : Option HitRecord :=
  let origin_to_center := ray.origin - s.center_position
  let quadratic_a := ray.direction.length_squared
  let quadratic_half_b := dot origin_to_center ray.direction
  let quadratic_c := origin_to_center.length_squared - s.radius * s.radius
  let discriminant := quadratic_half_b * quadratic_half_b - quadratic_a * quadratic_c
  if discriminant < 0 then
    none
  else
    let sqrt_discriminant := sq discriminant
    let closer_root := (-quadratic_half_b - sqrt_discriminant) / quadratic_a
    let intersection_distance :=
      if closer_root < min_distance ∨ closer_root > max_distance then
        (-quadratic_half_b + sqrt_discriminant) / quadratic_a
      else
        closer_root
    if intersection_distance < min_distance ∨ intersection_distance > max_distance then
      none
    else
      let hit_point := ray.at intersection_distance
      let outward_normal := (hit_point - s.center_position) / s.radius
      let record : HitRecord :=
        { distance_from_ray := intersection_distance
          hit_point := hit_point
          material_ptr := s.material_ptr
          surface_normal := ⟨0, 0, 0⟩
          is_front_face := false }
      some (record.set_face_normal ray outward_normal)

/-- Claim C4: for every r > 0, the sphere of radius r at the origin hit by
the ray from (0,0,-2r) along +z, with any distance range containing r,
reports the intersection at parameter r with hit point (0,0,-r) and
recorded surface normal (0,0,-1), assuming the modelled square root is
exact at the perfect square r*r. -/
theorem sphere_axis_ray_hit_at_radius (sq : ℚ → ℚ) (r t_min t_max : ℚ) (m : Material)
    (hr : 0 < r) (hsq : sq (r * r) = r) (hmin : t_min ≤ r) (hmax : r ≤ t_max) :
    Sphere.hit sq ⟨⟨0, 0, 0⟩, r, m⟩ ⟨⟨0, 0, -(2*r)⟩, ⟨0, 0, 1⟩⟩ t_min t_max
      = some { hit_point := ⟨0, 0, -r⟩, surface_normal := ⟨0, 0, -1⟩,
               distance_from_ray := r, is_front_face := true, material_ptr := m } := by
  unfold Sphere.hit
  dsimp only
  simp [dot, Vec3.length_squared, Ray.at, HitRecord.set_face_normal]
  ring_nf
  have hsq2 : sq (r ^ 2) = r := by
    rw [pow_two]
    exact hsq
  rw [hsq2]
  have hcond : ¬(r * 2 - r < t_min ∨ t_max < r * 2 - r) := by
    push_neg
    constructor <;> linarith
  rw [if_neg hcond]
  have hz : -(r * r⁻¹ * 2) + (r * 2 - r) * r⁻¹ = -1 := by
    field_simp
    ring
  rw [hz]
  norm_num
  refine ⟨by positivity, ⟨by linarith, by linarith⟩, by ring, by ring⟩

/-- Witness for C4 at radius 1, with the identity standing in for the
square root, whose value at the only queried point 1*1 is the correct 1. -/
theorem sphere_axis_ray_hit_at_radius_witness :
    (0 : ℚ) < 1
    ∧ (fun q : ℚ => q) (1 * 1) = 1
    ∧ (1/2 : ℚ) ≤ 1
    ∧ (1 : ℚ) ≤ 2
    ∧ Sphere.hit (fun q : ℚ => q) ⟨⟨0, 0, 0⟩, 1, Material.matte ⟨1, 1, 1⟩⟩
        ⟨⟨0, 0, -(2*1)⟩, ⟨0, 0, 1⟩⟩ (1/2) 2
      = some { hit_point := ⟨0, 0, -1⟩, surface_normal := ⟨0, 0, -1⟩,
               distance_from_ray := 1, is_front_face := true,
               material_ptr := Material.matte ⟨1, 1, 1⟩ } :=
  ⟨by norm_num, by norm_num, by norm_num, by norm_num,
    sphere_axis_ray_hit_at_radius (fun q : ℚ => q) 1 (1/2) 2 (Material.matte ⟨1, 1, 1⟩)
      (by norm_num) (by norm_num) (by norm_num) (by norm_num)⟩

/-- The `is_near_zero` helper of Utils.cpp: every component below 1e-8 in
magnitude. -/
def is_near_zero (v : Vec3) : Bool :=
  decide (|v.x| < 1 / 100000000) && decide (|v.y| < 1 / 100000000)
    && decide (|v.z| < 1 / 100000000)

/-- The `reflect` helper of Utils.cpp: mirror the incoming vector about the
normal. -/
def reflect (incoming normal : Vec3) : Vec3 :=
  incoming - (2 * dot incoming normal) * normal

/-- The `refract` helper of Utils.cpp: perpendicular and parallel
decomposition of the Snell-law refraction direction.  The square root is
the modelled `sq` function and fabs is exact rational absolute value. -/
def refract (sq : ℚ → ℚ) (incoming normal : Vec3) (refractionFactor : ℚ) : Vec3 :=
  let cos_theta := min (dot incoming.neg normal) 1
  let refracted_perpendicular := refractionFactor * (incoming + cos_theta * normal)
  let refracted_parallel :=
    (-(sq |1 - refracted_perpendicular.length_squared|)) * normal
  refracted_perpendicular + refracted_parallel

/-- One bounce worth of pseudo-random draws.  Each field carries the value
produced by the corresponding sampling routine of Utils.cpp when the
scatter call consumes it: `cosine_direction` the value of
random_cosine_direction at the surface normal, `unit_draw` the value of
random_unit_vector, `uniform` the value of random_double. -/
structure RandomDraw where
  cosine_direction : Vec3
  unit_draw : Vec3
  uniform : ℚ
  deriving DecidableEq, Repr

/-- Scatter result record of Material.h. -/
structure ScatterRecord where
  scattered_ray : Ray
  attenuation : Vec3
  did_scatter : Bool
  deriving DecidableEq, Repr

/-- Schlick approximation, the private `reflectance` helper of the
Transparent material in Material.h. -/
def reflectance (cosine refraction_index : ℚ) : ℚ :=
  let r0 := (1 - refraction_index) / (1 + refraction_index)
  let r0sq := r0 * r0
  r0sq + (1 - r0sq) * (1 - cosine) ^ (5 : ℕ)

/-- The `scatter` virtual of Material.h for the three material variants,
translated case by case from Matte::scatter, Reflective::scatter and
Transparent::scatter.  Randomness is supplied through `draw`. -/
def Material.scatter (sq : ℚ → ℚ) (material : Material) (ray_in : Ray)
    (hit_info : HitRecord) (draw : RandomDraw) : ScatterRecord :=
  match material with
  | Material.matte surface_color =>
    let sampled := draw.cosine_direction
    let scatter_direction :=
      if is_near_zero sampled then hit_info.surface_normal else sampled
    { scattered_ray := ⟨hit_info.hit_point, scatter_direction⟩
      attenuation := surface_color
      did_scatter := true }
  | Material.reflective surface_color fuzziness =>
    let reflected_direction :=
      reflect (unit_vector sq ray_in.direction) hit_info.surface_normal
    let perturbed := reflected_direction + fuzziness * draw.unit_draw
    { scattered_ray := ⟨hit_info.hit_point, perturbed⟩
      attenuation := surface_color
      did_scatter := decide (dot perturbed hit_info.surface_normal > 0) }
  | Material.transparent refractive_index =>
    let refractionFactor :=
      if hit_info.is_front_face then 1 / refractive_index else refractive_index
    let unit_direction := unit_vector sq ray_in.direction
    let cos_theta := min (dot unit_direction.neg hit_info.surface_normal) 1
    let sin_theta := sq (1 - cos_theta * cos_theta)
    let cannot_refract := refractionFactor * sin_theta > 1
    let direction :=
      if cannot_refract ∨ reflectance cos_theta refractionFactor > draw.uniform then
        reflect unit_direction hit_info.surface_normal
      else
        refract sq unit_direction hit_info.surface_normal refractionFactor
    { scattered_ray := ⟨hit_info.hit_point, direction⟩
      attenuation := ⟨1, 1, 1⟩
      did_scatter := true }

/-- Claim C5: for every material variant, incoming ray, hit record and
random draw, the attenuation written by scatter equals the base color of
the material, hence never exceeds it in any RGB channel: no material
brightens light. -/
theorem scatter_attenuation_le_base_color (sq : ℚ → ℚ) (material : Material)
    (ray_in : Ray) (hit_info : HitRecord) (draw : RandomDraw) :
    (material.scatter sq ray_in hit_info draw).attenuation = material.base_color
    ∧ (material.scatter sq ray_in hit_info draw).attenuation.x ≤ material.base_color.x
    ∧ (material.scatter sq ray_in hit_info draw).attenuation.y ≤ material.base_color.y
    ∧ (material.scatter sq ray_in hit_info draw).attenuation.z ≤ material.base_color.z := by
  cases material with
  | matte surface_color =>
    exact ⟨rfl, le_refl _, le_refl _, le_refl _⟩
  | reflective surface_color fuzziness =>
    exact ⟨rfl, le_refl _, le_refl _, le_refl _⟩
  | transparent refractive_index =>
    exact ⟨rfl, le_refl _, le_refl _, le_refl _⟩

/-- Instantiation of C5 at a concrete matte material, hit and draw. -/
theorem scatter_attenuation_le_base_color_witness :
    ((Material.matte ⟨1/2, 1/2, 1/2⟩).scatter (fun q : ℚ => q) testRay
        (HitRecord.mk ⟨0, 0, 0⟩ ⟨0, 1, 0⟩ 1 true (Material.matte ⟨1/2, 1/2, 1/2⟩))
        ⟨⟨0, 0, 0⟩, ⟨0, 0, 0⟩, 0⟩).attenuation
      = (Material.matte ⟨1/2, 1/2, 1/2⟩).base_color
    ∧ ((Material.matte ⟨1/2, 1/2, 1/2⟩).scatter (fun q : ℚ => q) testRay
        (HitRecord.mk ⟨0, 0, 0⟩ ⟨0, 1, 0⟩ 1 true (Material.matte ⟨1/2, 1/2, 1/2⟩))
        ⟨⟨0, 0, 0⟩, ⟨0, 0, 0⟩, 0⟩).attenuation.x
      ≤ (Material.matte ⟨1/2, 1/2, 1/2⟩).base_color.x
    ∧ ((Material.matte ⟨1/2, 1/2, 1/2⟩).scatter (fun q : ℚ => q) testRay
        (HitRecord.mk ⟨0, 0, 0⟩ ⟨0, 1, 0⟩ 1 true (Material.matte ⟨1/2, 1/2, 1/2⟩))
        ⟨⟨0, 0, 0⟩, ⟨0, 0, 0⟩, 0⟩).attenuation.y
      ≤ (Material.matte ⟨1/2, 1/2, 1/2⟩).base_color.y
    ∧ ((Material.matte ⟨1/2, 1/2, 1/2⟩).scatter (fun q : ℚ => q) testRay
        (HitRecord.mk ⟨0, 0, 0⟩ ⟨0, 1, 0⟩ 1 true (Material.matte ⟨1/2, 1/2, 1/2⟩))
        ⟨⟨0, 0, 0⟩, ⟨0, 0, 0⟩, 0⟩).attenuation.z
      ≤ (Material.matte ⟨1/2, 1/2, 1/2⟩).base_color.z :=
  scatter_attenuation_le_base_color (fun q : ℚ => q) (Material.matte ⟨1/2, 1/2, 1/2⟩)
    testRay (HitRecord.mk ⟨0, 0, 0⟩ ⟨0, 1, 0⟩ 1 true (Material.matte ⟨1/2, 1/2, 1/2⟩))
    ⟨⟨0, 0, 0⟩, ⟨0, 0, 0⟩, 0⟩

/-- Claim C6: whenever the total-internal-reflection test of the dielectric
holds, that is the refraction quotient times the computed sine exceeds one,
scatter returns the mirror reflection of the unit incoming direction for
every value of the fresh uniform draw, so the refraction branch is never
taken and the outcome is deterministic. -/
theorem transparent_tir_always_reflects (sq : ℚ → ℚ) (refractive_index : ℚ)
    (ray_in : Ray) (hit_info : HitRecord) (draw : RandomDraw)
    (h : (if hit_info.is_front_face then 1 / refractive_index else refractive_index)
        * sq (1 - min (dot (unit_vector sq ray_in.direction).neg hit_info.surface_normal) 1
              * min (dot (unit_vector sq ray_in.direction).neg hit_info.surface_normal) 1)
        > 1) :
    ((Material.transparent refractive_index).scatter sq ray_in hit_info draw).scattered_ray
      = ⟨hit_info.hit_point,
          reflect (unit_vector sq ray_in.direction) hit_info.surface_normal⟩
    ∧ ((Material.transparent refractive_index).scatter sq ray_in hit_info draw).did_scatter
        = true := by
  unfold Material.scatter
  dsimp only
  rw [if_pos (Or.inl h)]
  exact ⟨rfl, rfl⟩

/-- Witness for C6: a ray exiting glass with index 3/2 at a right angle to
the normal, so the computed sine is 1 and 3/2 times it exceeds 1.  The
identity models the square root, whose only queried value 1 is exact. -/
theorem transparent_tir_always_reflects_witness :
    ((if (false : Bool) then 1 / (3/2 : ℚ) else (3/2 : ℚ))
        * (fun q : ℚ => q)
          (1 - min (dot (unit_vector (fun q : ℚ => q)
                  (Ray.mk ⟨0, 0, 0⟩ ⟨1, 0, 0⟩).direction).neg
                (HitRecord.mk ⟨0, 0, 0⟩ ⟨0, 1, 0⟩ 1 false
                  (Material.transparent (3/2))).surface_normal) 1
              * min (dot (unit_vector (fun q : ℚ => q)
                  (Ray.mk ⟨0, 0, 0⟩ ⟨1, 0, 0⟩).direction).neg
                (HitRecord.mk ⟨0, 0, 0⟩ ⟨0, 1, 0⟩ 1 false
                  (Material.transparent (3/2))).surface_normal) 1)
        > 1)
    ∧ ((Material.transparent (3/2)).scatter (fun q : ℚ => q)
          (Ray.mk ⟨0, 0, 0⟩ ⟨1, 0, 0⟩)
          (HitRecord.mk ⟨0, 0, 0⟩ ⟨0, 1, 0⟩ 1 false (Material.transparent (3/2)))
          (RandomDraw.mk ⟨0, 0, 0⟩ ⟨0, 0, 0⟩ 0)).scattered_ray
        = ⟨(HitRecord.mk ⟨0, 0, 0⟩ ⟨0, 1, 0⟩ 1 false
              (Material.transparent (3/2))).hit_point,
            reflect (unit_vector (fun q : ℚ => q)
                (Ray.mk ⟨0, 0, 0⟩ ⟨1, 0, 0⟩).direction)
              (HitRecord.mk ⟨0, 0, 0⟩ ⟨0, 1, 0⟩ 1 false
                (Material.transparent (3/2))).surface_normal⟩
      ∧ ((Material.transparent (3/2)).scatter (fun q : ℚ => q)
            (Ray.mk ⟨0, 0, 0⟩ ⟨1, 0, 0⟩)
            (HitRecord.mk ⟨0, 0, 0⟩ ⟨0, 1, 0⟩ 1 false (Material.transparent (3/2)))
            (RandomDraw.mk ⟨0, 0, 0⟩ ⟨0, 0, 0⟩ 0)).did_scatter = true := by
  have h : ((if (false : Bool) then 1 / (3/2 : ℚ) else (3/2 : ℚ))
      * (fun q : ℚ => q)
        (1 - min (dot (unit_vector (fun q : ℚ => q)
                (Ray.mk ⟨0, 0, 0⟩ ⟨1, 0, 0⟩).direction).neg
              (HitRecord.mk ⟨0, 0, 0⟩ ⟨0, 1, 0⟩ 1 false
                (Material.transparent (3/2))).surface_normal) 1
            * min (dot (unit_vector (fun q : ℚ => q)
                (Ray.mk ⟨0, 0, 0⟩ ⟨1, 0, 0⟩).direction).neg
              (HitRecord.mk ⟨0, 0, 0⟩ ⟨0, 1, 0⟩ 1 false
                (Material.transparent (3/2))).surface_normal) 1)
      > 1) := by
    norm_num [unit_vector, Vec3.length_squared, Vec3.neg, dot]
  exact ⟨h, transparent_tir_always_reflects (fun q : ℚ => q) (3/2)
    (Ray.mk ⟨0, 0, 0⟩ ⟨1, 0, 0⟩)
    (HitRecord.mk ⟨0, 0, 0⟩ ⟨0, 1, 0⟩ 1 false (Material.transparent (3/2)))
    (RandomDraw.mk ⟨0, 0, 0⟩ ⟨0, 0, 0⟩ 0) h⟩

/-- Point light of Light.h: a position and an RGB intensity. -/
structure Light where
  position : Vec3
  intensity : Vec3
  deriving DecidableEq, Repr

/-- Scene of Scene.h: the hittable aggregate plus the light list.  The
`layout` field only records room dimensions used during construction and is
never read by the rendering functions modelled here, so it is omitted. -/
structure Scene where
  objects : List Hittable
  lights : List Light

/-- Body of the light loop of compute_diffuse_lighting in Renderer.cpp: one
light is tested and either skipped or accumulated.  `1/1000` is the
`shadow_bias` constant of the source. -/
def diffuse_light_step (sq : ℚ → ℚ) (scene : Scene) (hit_info : HitRecord)
    (accumulated_light : Vec3) (light : Light) : Vec3 :=
  let shadow_bias : ℚ := 1/1000
  let to_light := light.position - hit_info.hit_point
  let distance_squared := to_light.length_squared
  if distance_squared ≤ 0 then
    accumulated_light
  else
    let light_direction := unit_vector sq to_light
    let n_dot_l := dot hit_info.surface_normal light_direction
    if n_dot_l ≤ 0 then
      accumulated_light
    else
      let distance_to_light := sq distance_squared
      let shadow_ray : Ray :=
        ⟨hit_info.hit_point + shadow_bias * hit_info.surface_normal, light_direction⟩
      match HittableList.hit scene.objects shadow_ray shadow_bias
          (distance_to_light - shadow_bias) with
      | some _ => accumulated_light
      | none =>
        let light_energy := light.intensity / distance_squared
        accumulated_light + n_dot_l * light_energy

/-- compute_diffuse_lighting of Renderer.cpp: early out for an empty light
list, otherwise fold the per-light loop body over all lights starting from
black. -/
def compute_diffuse_lighting (sq : ℚ → ℚ) (scene : Scene) (hit_info : HitRecord) : Vec3 :=
  if scene.lights.isEmpty then
    ⟨0, 0, 0⟩
  else
    scene.lights.foldl (diffuse_light_step sq scene hit_info) ⟨0, 0, 0⟩

/-- Spec-side definition for the refinement claim C8, following the words
of the spec: a light contributes n.l times intensity over squared distance
exactly when it sits at nonzero distance, faces the surface, and the shadow
ray from the biased point finds no occluder between the bias and the light
distance minus the bias; otherwise it contributes exactly zero. -/
def spec_light_contribution (sq : ℚ → ℚ) (scene : Scene) (hit_info : HitRecord)
    (light : Light) : Vec3 :=
  let to_light := light.position - hit_info.hit_point
  let distance_squared := to_light.length_squared
  let light_direction := unit_vector sq to_light
  let n_dot_l := dot hit_info.surface_normal light_direction
  let shadow_ray : Ray :=
    ⟨hit_info.hit_point + (1/1000 : ℚ) * hit_info.surface_normal, light_direction⟩
  if 0 < distance_squared ∧ 0 < n_dot_l
      ∧ HittableList.hit scene.objects shadow_ray (1/1000)
          (sq distance_squared - 1/1000) = none then
    n_dot_l * (light.intensity / distance_squared)
  else
    ⟨0, 0, 0⟩

theorem vec_add_zero (v : Vec3) : v + (⟨0, 0, 0⟩ : Vec3) = v := by
  simp

theorem vec_zero_add (v : Vec3) : (⟨0, 0, 0⟩ : Vec3) + v = v := by
  simp

theorem vec_add_assoc (a b c : Vec3) : a + b + c = a + (b + c) := by
  simp [add_assoc]

/-- One loop iteration adds exactly the spec-side contribution. -/
theorem diffuse_light_step_eq (sq : ℚ → ℚ) (scene : Scene) (hit_info : HitRecord)
    (accumulated_light : Vec3) (light : Light) :
    diffuse_light_step sq scene hit_info accumulated_light light
      = accumulated_light + spec_light_contribution sq scene hit_info light := by
  unfold diffuse_light_step spec_light_contribution
  dsimp only
  by_cases h1 : (light.position - hit_info.hit_point).length_squared ≤ 0
  · rw [if_pos h1, if_neg (by intro hc; exact absurd hc.1 (not_lt.mpr h1)), vec_add_zero]
  · rw [if_neg h1]
    by_cases h2 : dot hit_info.surface_normal
        (unit_vector sq (light.position - hit_info.hit_point)) ≤ 0
    · rw [if_pos h2, if_neg (by intro hc; exact absurd hc.2.1 (not_lt.mpr h2)), vec_add_zero]
    · rw [if_neg h2]
      cases h3 : HittableList.hit scene.objects
          ⟨hit_info.hit_point + (1/1000 : ℚ) * hit_info.surface_normal,
            unit_vector sq (light.position - hit_info.hit_point)⟩ (1/1000)
          (sq (light.position - hit_info.hit_point).length_squared - 1/1000) with
      | some occluder =>
        rw [if_neg (fun hc => Option.noConfusion hc.2.2), vec_add_zero]
      | none =>
        rw [if_pos ⟨not_le.mp h1, not_le.mp h2, rfl⟩]

/-- The loop is the running sum of spec-side contributions. -/
theorem diffuse_light_foldl_sum (sq : ℚ → ℚ) (scene : Scene) (hit_info : HitRecord) :
    ∀ (lights : List Light) (accumulated_light : Vec3),
      lights.foldl (diffuse_light_step sq scene hit_info) accumulated_light
        = accumulated_light
          + (lights.map (spec_light_contribution sq scene hit_info)).sum := by
  intro lights
  induction lights with
  | nil =>
    intro accumulated_light
    simp
  | cons light rest ih =>
    intro accumulated_light
    simp only [List.foldl_cons, List.map_cons, List.sum_cons]
    rw [ih, diffuse_light_step_eq, vec_add_assoc]

/-- Claim C8: compute_diffuse_lighting returns exactly the sum, over the
scene lights, of the spec-side per-light contribution: n.l times intensity
over squared distance for every unoccluded front-facing light at nonzero
distance, exactly zero for every other light, and black when the scene has
no lights. -/
theorem compute_diffuse_lighting_eq_spec_sum (sq : ℚ → ℚ) (scene : Scene)
    (hit_info : HitRecord) :
    compute_diffuse_lighting sq scene hit_info
      = (scene.lights.map (spec_light_contribution sq scene hit_info)).sum
    ∧ (scene.lights = [] → compute_diffuse_lighting sq scene hit_info = ⟨0, 0, 0⟩) := by
  constructor
  · unfold compute_diffuse_lighting
    rcases hl : scene.lights with _ | ⟨light, rest⟩
    · simp
    · rw [if_neg (by simp)]
      rw [diffuse_light_foldl_sum, vec_zero_add]
  · intro h
    unfold compute_diffuse_lighting
    rw [h]
    rfl

/-- Instantiation of C8 at a concrete scene with one rectangle and one
light. -/
theorem compute_diffuse_lighting_eq_spec_sum_witness :
    compute_diffuse_lighting (fun q : ℚ => q)
        ⟨[rectHittable testRectU], [⟨⟨0, 5, 0⟩, ⟨14, 14, 14⟩⟩]⟩
        (HitRecord.mk ⟨0, 0, 0⟩ ⟨0, 1, 0⟩ 1 true (Material.matte ⟨1/2, 1/2, 1/2⟩))
      = ((Scene.mk [rectHittable testRectU] [⟨⟨0, 5, 0⟩, ⟨14, 14, 14⟩⟩]).lights.map
          (spec_light_contribution (fun q : ℚ => q)
            ⟨[rectHittable testRectU], [⟨⟨0, 5, 0⟩, ⟨14, 14, 14⟩⟩]⟩
            (HitRecord.mk ⟨0, 0, 0⟩ ⟨0, 1, 0⟩ 1 true
              (Material.matte ⟨1/2, 1/2, 1/2⟩)))).sum
    ∧ ((Scene.mk [rectHittable testRectU] [⟨⟨0, 5, 0⟩, ⟨14, 14, 14⟩⟩]).lights = [] →
        compute_diffuse_lighting (fun q : ℚ => q)
          ⟨[rectHittable testRectU], [⟨⟨0, 5, 0⟩, ⟨14, 14, 14⟩⟩]⟩
          (HitRecord.mk ⟨0, 0, 0⟩ ⟨0, 1, 0⟩ 1 true (Material.matte ⟨1/2, 1/2, 1/2⟩))
          = ⟨0, 0, 0⟩) :=
  compute_diffuse_lighting_eq_spec_sum (fun q : ℚ => q)
    ⟨[rectHittable testRectU], [⟨⟨0, 5, 0⟩, ⟨14, 14, 14⟩⟩]⟩
    (HitRecord.mk ⟨0, 0, 0⟩ ⟨0, 1, 0⟩ 1 true (Material.matte ⟨1/2, 1/2, 1/2⟩))

/-- calculate_sky_color of Renderer.cpp: vertical gradient between white
and sky blue driven by the normalized direction. -/
def calculate_sky_color (sq : ℚ → ℚ) (ray : Ray) : Vec3 :=
  let unit_direction := unit_vector sq ray.direction
  let blend_factor := 1/2 * (unit_direction.y + 1)
  let white : Vec3 := ⟨1, 1, 1⟩
  let sky_blue : Vec3 := ⟨1/2, 7/10, 1⟩
  (1 - blend_factor) * white + blend_factor * sky_blue

/-- calculate_ray_color of Renderer.cpp: depth cutoff to black, scene hit
within [0.001, 1000000], direct lighting for diffuse materials, recursive
indirect term through the scatter result, sky gradient on a miss.  The
source decrements an int depth; recursion is measured by its toNat.  The
global generator is modelled by the stream `draws`, one bundle of draws
consumed per bounce. -/
def calculate_ray_color (sq : ℚ → ℚ) (ray : Ray) (scene : Scene) (depth : ℤ)
    (draws : ℕ → RandomDraw) (draw_index : ℕ) : Vec3 :=
  if h : depth ≤ 0 then
    ⟨0, 0, 0⟩
  else
    match HittableList.hit scene.objects ray (1/1000) 1000000 with
    | some hit_info =>
      let material := hit_info.material_ptr
      let direct_component :=
        if material.is_diffuse then
          material.base_color * compute_diffuse_lighting sq scene hit_info
        else
          (⟨0, 0, 0⟩ : Vec3)
      let scatter_record := material.scatter sq ray hit_info (draws draw_index)
      if scatter_record.did_scatter then
        direct_component + scatter_record.attenuation *
          calculate_ray_color sq scatter_record.scattered_ray scene (depth - 1)
            draws (draw_index + 1)
      else
        direct_component
    | none => calculate_sky_color sq ray
  termination_by depth.toNat
  decreasing_by
    simp_wf
    omega

/-- Claim C2: with a depth budget at or below zero, in particular with
max_depth = 0, calculate_ray_color returns black for every scene, every
ray and every random stream; the guard precedes the scene intersection, so
the result does not depend on the scene at all. -/
theorem calculate_ray_color_depth_zero_black (sq : ℚ → ℚ) (ray : Ray)
    (scene : Scene) (depth : ℤ) (draws : ℕ → RandomDraw) (draw_index : ℕ)
    (h : depth ≤ 0) :
    calculate_ray_color sq ray scene depth draws draw_index = ⟨0, 0, 0⟩ := by
  unfold calculate_ray_color
  rw [dif_pos h]

/-- Witness for C2: depth 0 on a scene that does contain geometry and a
light still yields black. -/
theorem calculate_ray_color_depth_zero_black_witness :
    (0 : ℤ) ≤ 0
    ∧ calculate_ray_color (fun q : ℚ => q) testRay
        ⟨[rectHittable testRectU], [⟨⟨0, 5, 0⟩, ⟨14, 14, 14⟩⟩]⟩ 0
        (fun _ => ⟨⟨0, 0, 0⟩, ⟨0, 0, 0⟩, 0⟩) 0 = ⟨0, 0, 0⟩ :=
  ⟨le_refl 0, calculate_ray_color_depth_zero_black (fun q : ℚ => q) testRay
    ⟨[rectHittable testRectU], [⟨⟨0, 5, 0⟩, ⟨14, 14, 14⟩⟩]⟩ 0
    (fun _ => ⟨⟨0, 0, 0⟩, ⟨0, 0, 0⟩, 0⟩) 0 (le_refl 0)⟩

/-- std::clamp on rationals, as the C++ reference defines it. -/
def clampQ (value low high : ℚ) : ℚ :=
  if value < low then low
  else if high < value then high
  else value

/-- convert_to_byte of Color.cpp, the gamma-correcting variant: square-root
gamma through the modelled `sq`, clamp to [0, 0.999], scale by 256 and
truncate to a byte.  The truncating static_cast is the floor, since the
clamped product is nonnegative, and it fits a byte by the bound proved
below. -/
def convert_to_byte (sq : ℚ → ℚ) (color_value : ℚ) : ℕ :=
  let gamma_corrected := sq color_value
  let clamped_value := clampQ gamma_corrected 0 (999/1000)
  (⌊clamped_value * 256⌋).toNat

/-- write_color of Color.cpp: push the three converted channels onto the
image buffer. -/
def write_color (sq : ℚ → ℚ) (image_buffer : List ℕ) (pixel_color : Vec3) : List ℕ :=
  image_buffer ++ [convert_to_byte sq pixel_color.x,
    convert_to_byte sq pixel_color.y, convert_to_byte sq pixel_color.z]

/-- Claim C9: with a square root exact at 0 and 1, the tone-mapping
conversion maps channel value 1 to byte 255 and channel 0 to byte 0, so
white maps to (255,255,255) and black to (0,0,0), and for every input the
clamp below one keeps the quantized byte at most 255. -/
theorem convert_to_byte_round_trip (sq : ℚ → ℚ) (h1 : sq 1 = 1) (h0 : sq 0 = 0) :
    write_color sq [] ⟨1, 1, 1⟩ = [255, 255, 255]
    ∧ write_color sq [] ⟨0, 0, 0⟩ = [0, 0, 0]
    ∧ ∀ color_value : ℚ, convert_to_byte sq color_value ≤ 255 := by
  refine ⟨?_, ?_, ?_⟩
  · simp only [write_color, convert_to_byte, clampQ, h1]
    norm_num
    rfl
  · simp only [write_color, convert_to_byte, clampQ, h0]
    norm_num
  · intro color_value
    unfold convert_to_byte clampQ
    dsimp only
    split_ifs with ha hb
    · norm_num
    · norm_num
    · have hb2 : sq color_value ≤ 999/1000 := not_lt.mp hb
      have h2 : (sq color_value * 256 : ℚ) < ((256 : ℤ) : ℚ) := by
        push_cast
        nlinarith
      have h3 : ⌊(sq color_value * 256 : ℚ)⌋ < (256 : ℤ) := Int.floor_lt.mpr h2
      omega

/-- Witness for C9 with the identity standing in for the square root, which
is exact at the two queried points 0 and 1. -/
theorem convert_to_byte_round_trip_witness :
    (fun q : ℚ => q) 1 = 1
    ∧ (fun q : ℚ => q) 0 = 0
    ∧ (write_color (fun q : ℚ => q) [] ⟨1, 1, 1⟩ = [255, 255, 255]
      ∧ write_color (fun q : ℚ => q) [] ⟨0, 0, 0⟩ = [0, 0, 0]
      ∧ ∀ color_value : ℚ, convert_to_byte (fun q : ℚ => q) color_value ≤ 255) :=
  ⟨rfl, rfl, convert_to_byte_round_trip (fun q : ℚ => q) rfl rfl⟩

end Raytracer
